import Mathlib

/-!
Shallow embedding of `src/nclib.py` (class `Netcat`).

The socket is modelled as a list of raw-read outcomes (`REv`): each call the
code makes to `self.sock.recv(bound)` consumes the next event.  A `data b`
event means the read returned the bytes `b` (clamped to the requested bound,
as a real socket never returns more than asked); `toErr` means the read raised
`socket.timeout`; `err` means it raised `socket.error`; `intr` means a
`KeyboardInterrupt` arrived during the read.  Wall-clock readings of
`time.time() - start` are supplied by a `clock : Nat → Int` giving the elapsed
time observed at each loop iteration.  The mutable object state
(`self.buf`, the socket deadline set by `settimeout`, `self._timeout`,
`self.timed_out`, the `_log_recv`/`_log_send` side channels, `self.peer`,
`self.peer_implicit`) is the record `NC`.
-/

namespace Nclib

abbrev Bytes := List Nat

/-- One outcome of a raw `self.sock.recv(bound)` call. -/
inductive REv
  | data (b : Bytes)
  | toErr
  | err
  | intr
deriving Repr, DecidableEq

/-- The `timeout` argument of the receive methods: the string sentinel
`'default'`, Python `None` (block forever), or an explicit duration. -/
inductive TimeoutArg
  | default
  | noTimeout
  | time (t : Int)
deriving Repr, DecidableEq

/-- Python truthiness of the `timeout` argument, negated: `not timeout` is
true for `None` and for the number `0`, false for the non-empty string
`'default'` and for non-zero numbers. -/
def TimeoutArg.falsy : TimeoutArg → Bool
  | .default => false
  | .noTimeout => true
  | .time t => t == 0

/-- `timeout = self._timeout if timeout == 'default' else timeout`
as done at the top of `recv_until`, `recv_all`, `recv_exactly`. -/
def resolveTimeout (st : TimeoutArg) (deflt : Option Int) : Option Int :=
  match st with
  | .default => deflt
  | .noTimeout => Option.none
  | .time t => some t

/-- The state of one `Netcat` object. -/
structure NC where
  buf : Bytes
  sockTimeout : Option Int
  defTimeout : Option Int
  timedOut : Bool
  logRecv : List Bytes
  logSend : List Bytes
  peer : Option Nat
  peerImplicit : Bool
deriving Repr, DecidableEq

/-- Exceptions that can escape a method. -/
inductive Exn
  | netcat (msg : String)
  | sockErr
  | keyboardInterrupt
deriving Repr, DecidableEq

/-- Result of a receive method: normal return of bytes, an escaping
exception, or the call blocking forever (the event list ran out while the
code was waiting on the socket). -/
inductive RecvResult
  | ok (b : Bytes)
  | exn (e : Exn)
  | blocked
deriving Repr, DecidableEq

/-- In Python 3, `a == ''` where `a` is a `bytes` object compares values of
different types and is always `False` (source lines 226 and 259 perform
exactly this comparison on the result of `sock.recv`). -/
def bytesEqEmptyStr (_ : Bytes) : Bool := false

/-- `self._log_recv(data)` viewed through the side channel: record the bytes
handed to the receive hook (source lines 151-155). -/
def log_recv (st : NC) (b : Bytes) : NC :=
  { st with logRecv := st.logRecv ++ [b] }

/-- `Netcat._head_buf` (source lines 90-95): take `index` bytes off the front
of the residual buffer (all of it when `index is None`). -/
def head_buf (st : NC) (index : Option Nat) : Bytes × NC :=
  let i := index.getD st.buf.length
  (st.buf.take i, { st with buf := st.buf.drop i })

/-- A raw socket read of at most `bound` bytes: the environment supplies the
chunk, the kernel clamp keeps it within the bound. -/
def rawTake (bound : Nat) (b : Bytes) : Bytes := b.take bound

/-- Index of the first occurrence of `s` as a contiguous substring of `l`
(Python `l.index(s)`), `none` when absent (Python `s in l` is `isSome`). -/
def firstOccur (s : Bytes) : Bytes → Option Nat
  | [] => if s.isPrefixOf ([] : Bytes) then some 0 else Option.none
  | a :: t =>
      if s.isPrefixOf (a :: t) then some 0
      else (firstOccur s t).map (· + 1)

/-- Python `s in l` substring test on bytes. -/
def containsSub (s l : Bytes) : Bool := (firstOccur s l).isSome

/-- `if timeout != 'default': self.sock.settimeout(timeout)` — the per-call
deadline `recv` writes to the socket before its single raw read. -/
def setCallTimeout (tm : TimeoutArg) (st : NC) : NC :=
  match tm with
  | .default => st
  | .noTimeout => { st with sockTimeout := Option.none }
  | .time t => { st with sockTimeout := some t }

@[simp] theorem setCallTimeout_buf (tm : TimeoutArg) (st : NC) :
    (setCallTimeout tm st).buf = st.buf := by cases tm <;> rfl

@[simp] theorem setCallTimeout_logRecv (tm : TimeoutArg) (st : NC) :
    (setCallTimeout tm st).logRecv = st.logRecv := by cases tm <;> rfl

@[simp] theorem setCallTimeout_defTimeout (tm : TimeoutArg) (st : NC) :
    (setCallTimeout tm st).defTimeout = st.defTimeout := by cases tm <;> rfl

@[simp] theorem setCallTimeout_timedOut (tm : TimeoutArg) (st : NC) :
    (setCallTimeout tm st).timedOut = st.timedOut := by cases tm <;> rfl

/-- `Netcat.recv` (source lines 193-230).  Serves from the residual buffer
when it is non-empty; otherwise applies the per-call timeout, performs one
raw read bounded by `n - len(buf)`, returns the result, and restores the
persistent timeout — except on the `socket.error` path, whose `raise`
happens before the restore. -/
def recv (st : NC) (evs : List REv) (n : Nat) (tm : TimeoutArg) :
    NC × List REv × RecvResult :=
  let st := { st with timedOut := false }
  if st.buf ≠ [] then
    let ret := st.buf.take n
    let st := { st with buf := st.buf.drop n }
    let st := log_recv st ret
    (st, evs, RecvResult.ok ret)
  else
    let st := setCallTimeout tm st
    match evs with
    | [] => (st, [], RecvResult.blocked)
    | REv.data a :: rest =>
        let a := rawTake (n - st.buf.length) a
        let st := { st with buf := st.buf ++ a }
        let ret := st.buf
        let st := { st with buf := [] }
        let st := { st with sockTimeout := st.defTimeout }
        if tm.falsy && bytesEqEmptyStr ret then
          (st, rest, RecvResult.exn (Exn.netcat "Connection dropped!"))
        else
          (log_recv st ret, rest, RecvResult.ok ret)
    | REv.toErr :: rest =>
        let st := { st with timedOut := true }
        let st := { st with sockTimeout := st.defTimeout }
        if tm.falsy && bytesEqEmptyStr [] then
          (st, rest, RecvResult.exn (Exn.netcat "Connection dropped!"))
        else
          (log_recv st [], rest, RecvResult.ok [])
    | REv.err :: rest => (st, rest, RecvResult.exn (Exn.netcat "Socket error!"))
    | REv.intr :: rest => (st, rest, RecvResult.exn Exn.keyboardInterrupt)

/-- How the `while s not in self.buf` loop of `recv_until` ended. -/
inductive UntilExit
  | found
  | timedOut
  | raised (e : Exn)
  | blocked
deriving Repr, DecidableEq

/-- `dt = time.time() - start; dt > timeout` — whether the deadline has
expired at loop iteration `k` (`false` when `timeout is None`). -/
def expiredAt (tmo : Option Int) (clock : Nat → Int) (k : Nat) : Bool :=
  match tmo with
  | some t => decide (clock k > t)
  | Option.none => false

/-- `if timeout is not None: self.sock.settimeout(timeout - dt)` — the
per-iteration deadline written to the socket at loop iteration `k`. -/
def setPerIter (tmo : Option Int) (clock : Nat → Int) (k : Nat) (st : NC) :
    NC :=
  match tmo with
  | some t => { st with sockTimeout := some (t - clock k) }
  | Option.none => st

@[simp] theorem expiredAt_some (t : Int) (clock : Nat → Int) (k : Nat) :
    expiredAt (some t) clock k = decide (clock k > t) := rfl

@[simp] theorem expiredAt_none (clock : Nat → Int) (k : Nat) :
    expiredAt Option.none clock k = false := rfl

@[simp] theorem setPerIter_some (t : Int) (clock : Nat → Int) (k : Nat)
    (st : NC) :
    setPerIter (some t) clock k st =
      { st with sockTimeout := some (t - clock k) } := rfl

@[simp] theorem setPerIter_none (clock : Nat → Int) (k : Nat) (st : NC) :
    setPerIter Option.none clock k st = st := rfl

/-- The accumulation loop of `Netcat.recv_until` (source lines 250-265):
while the delimiter is absent, check the deadline, set the per-iteration
socket timeout, read one chunk of at most 4096 bytes, log it and append it. -/
def recvUntilLoop (s : Bytes) (tmo : Option Int) (clock : Nat → Int) :
    List REv → NC → Nat → NC × List REv × UntilExit
  | [], st, k =>
    if containsSub s st.buf then (st, [], UntilExit.found)
    else if expiredAt tmo clock k then
      ({ st with timedOut := true }, [], UntilExit.timedOut)
    else (setPerIter tmo clock k st, [], UntilExit.blocked)
  | ev :: rest, st, k =>
    if containsSub s st.buf then (st, ev :: rest, UntilExit.found)
    else if expiredAt tmo clock k then
      ({ st with timedOut := true }, ev :: rest, UntilExit.timedOut)
    else
      let st := setPerIter tmo clock k st
      match ev with
      | REv.data a =>
          let a := rawTake 4096 a
          if bytesEqEmptyStr a then
            (st, rest, UntilExit.raised (Exn.netcat "Connection dropped!"))
          else
            recvUntilLoop s tmo clock rest
              { log_recv st a with buf := st.buf ++ a } (k + 1)
      | REv.toErr =>
          ({ st with timedOut := true }, rest, UntilExit.timedOut)
      | REv.err => (st, rest, UntilExit.raised Exn.sockErr)
      | REv.intr => (st, rest, UntilExit.raised Exn.keyboardInterrupt)

/-- `Netcat.recv_until` (source lines 232-270): run the loop; when it ends by
finding the delimiter or by timeout, restore the persistent timeout, consume
the buffer through `_head_buf` (everything when timed out, up to and
including the first delimiter occurrence otherwise), log and return it.
A `socket.error` or `KeyboardInterrupt` propagates before the restore. -/
def recv_until (st : NC) (evs : List REv) (s : Bytes) (tm : TimeoutArg)
    (clock : Nat → Int) : NC × List REv × RecvResult :=
  let st := { st with timedOut := false }
  let tmo := resolveTimeout tm st.defTimeout
  match recvUntilLoop s tmo clock evs st 0 with
  | (stL, evsL, UntilExit.blocked) => (stL, evsL, RecvResult.blocked)
  | (stL, evsL, UntilExit.raised e) => (stL, evsL, RecvResult.exn e)
  | (stL, evsL, UntilExit.found) | (stL, evsL, UntilExit.timedOut) =>
      let stL := { stL with sockTimeout := stL.defTimeout }
      let idx : Option Nat :=
        if stL.timedOut then Option.none
        else some ((firstOccur s stL.buf).getD 0 + s.length)
      let p := head_buf stL idx
      (log_recv p.2 p.1, evsL, RecvResult.ok p.1)

/-- How the loop of `recv_all` ended (it catches every exception type the
reads can raise, so it only ever falls through or blocks). -/
inductive AllExit
  | done
  | blocked
deriving Repr, DecidableEq

/-- The accumulation loop of `Netcat.recv_all` (source lines 286-308):
`while True`, check the deadline, set the per-iteration socket timeout, read
one chunk of at most 4096 bytes; an empty chunk breaks the loop, otherwise
append it to the buffer and log it.  `KeyboardInterrupt`, `socket.timeout`,
`socket.error` and `NetcatError` are all caught and end the loop. -/
def recvAllLoop (tmo : Option Int) (clock : Nat → Int) :
    List REv → NC → Nat → NC × List REv × AllExit
  | [], st, k =>
    if expiredAt tmo clock k then ({ st with timedOut := true }, [], AllExit.done)
    else (setPerIter tmo clock k st, [], AllExit.blocked)
  | ev :: rest, st, k =>
    if expiredAt tmo clock k then
      ({ st with timedOut := true }, ev :: rest, AllExit.done)
    else
      let st := setPerIter tmo clock k st
      match ev with
      | REv.data a =>
          let a := rawTake 4096 a
          if a.isEmpty then (st, rest, AllExit.done)
          else
            recvAllLoop tmo clock rest
              (log_recv { st with buf := st.buf ++ a } a) (k + 1)
      | REv.toErr => ({ st with timedOut := true }, rest, AllExit.done)
      | REv.err => (st, rest, AllExit.done)
      | REv.intr => (st, rest, AllExit.done)

/-- `Netcat.recv_all` (source lines 272-313): run the loop, restore the
persistent timeout, return the whole residual buffer and reset it.  The
returned bytes are not passed to `_log_recv` (only the individual chunks
were, inside the loop). -/
def recv_all (st : NC) (evs : List REv) (tm : TimeoutArg)
    (clock : Nat → Int) : NC × List REv × RecvResult :=
  let st := { st with timedOut := false }
  let tmo := resolveTimeout tm st.defTimeout
  match recvAllLoop tmo clock evs st 0 with
  | (stL, evsL, AllExit.blocked) => (stL, evsL, RecvResult.blocked)
  | (stL, evsL, AllExit.done) =>
      let stL := { stL with sockTimeout := stL.defTimeout }
      let ret := stL.buf
      let stL := { stL with buf := [] }
      (stL, evsL, RecvResult.ok ret)

/-- How the loop of `recv_exactly` ended. -/
inductive ExactExit
  | done
  | raised (e : Exn)
  | blocked
deriving Repr, DecidableEq

/-- The accumulation loop of `Netcat.recv_exactly` (source lines 329-349):
`while len(self.buf) < n`, check the deadline, set the per-iteration socket
timeout, read one chunk bounded by `n - len(buf)`; a zero-length chunk
raises a `NetcatError` naming the deficit, which is NOT caught by the
handlers (they catch `KeyboardInterrupt`, `socket.timeout`, `socket.error`);
a `socket.error` is re-raised as `NetcatError('Socket error!')`;
a `KeyboardInterrupt` ends the loop gracefully. -/
def recvExactlyLoop (n : Nat) (tmo : Option Int) (clock : Nat → Int) :
    List REv → NC → Nat → NC × List REv × ExactExit
  | [], st, k =>
    if st.buf.length < n then
      if expiredAt tmo clock k then
        ({ st with timedOut := true }, [], ExactExit.done)
      else (setPerIter tmo clock k st, [], ExactExit.blocked)
    else (st, [], ExactExit.done)
  | ev :: rest, st, k =>
    if st.buf.length < n then
      if expiredAt tmo clock k then
        ({ st with timedOut := true }, ev :: rest, ExactExit.done)
      else
        let st := setPerIter tmo clock k st
        match ev with
        | REv.data a =>
            let a := rawTake (n - st.buf.length) a
            if a.length = 0 then
              (st, rest, ExactExit.raised (Exn.netcat
                ("Connection closed before " ++ toString n ++
                  " bytes received!")))
            else
              recvExactlyLoop n tmo clock rest
                { st with buf := st.buf ++ a } (k + 1)
        | REv.toErr => ({ st with timedOut := true }, rest, ExactExit.done)
        | REv.err =>
            (st, rest, ExactExit.raised (Exn.netcat "Socket error!"))
        | REv.intr => (st, rest, ExactExit.done)
    else (st, ev :: rest, ExactExit.done)

/-- `Netcat.recv_exactly` (source lines 315-354): run the loop, then take
`n` bytes off the buffer, log and return them.  Unlike the other three
receive methods, the source has NO `self.sock.settimeout(self._timeout)`
after this loop, so the per-iteration deadline is left on the socket. -/
def recv_exactly (st : NC) (evs : List REv) (n : Nat) (tm : TimeoutArg)
    (clock : Nat → Int) : NC × List REv × RecvResult :=
  let st := { st with timedOut := false }
  let tmo := resolveTimeout tm st.defTimeout
  match recvExactlyLoop n tmo clock evs st 0 with
  | (stL, evsL, ExactExit.blocked) => (stL, evsL, RecvResult.blocked)
  | (stL, evsL, ExactExit.raised e) => (stL, evsL, RecvResult.exn e)
  | (stL, evsL, ExactExit.done) =>
      let out := stL.buf.take n
      let stL := { stL with buf := stL.buf.drop n }
      let stL := log_recv stL out
      (stL, evsL, RecvResult.ok out)

/-- One underlying write made by `send`: the bytes handed to
`sock.send` / `sock.sendto`, how many of them the write accepted, and the
explicit destination (`none` for the connection-oriented `sock.send`). -/
structure WriteRec where
  passed : Bytes
  accepted : Nat
  target : Option Nat
deriving Repr, DecidableEq

/-- The `while s:` loop of `Netcat.send` (source lines 365-369): each
iteration hands the whole remainder to the underlying write and advances
past the number of bytes the write accepted (`s = s[sock.send(s):]`).
`implicit` selects `sock.send` versus `sock.sendto(s, 0, self.peer)`.
`accepts` supplies the per-write accepted counts; if it runs out while bytes
remain, the leftover is returned as the second component. -/
def sendLoop (implicit : Bool) (peer : Option Nat) :
    List Nat → Bytes → List WriteRec × Bytes
  | _, [] => ([], [])
  | [], s => ([], s)
  | kk :: ks, s =>
      let tgt := if implicit then Option.none else peer
      let r := sendLoop implicit peer ks (s.drop kk)
      (⟨s, kk, tgt⟩ :: r.1, r.2)

/-- `Netcat.send` (source lines 356-369): log the data once through
`_log_send`, then run the write loop. -/
def send (st : NC) (accepts : List Nat) (s : Bytes) :
    NC × List WriteRec × Bytes :=
  let st := { st with logSend := st.logSend ++ [s] }
  let r := sendLoop st.peerImplicit st.peer accepts s
  (st, r.1, r.2)

/-- Successive writes of the send loop advance past exactly the accepted
count: each write is handed the previous remainder minus the bytes the
previous write accepted. -/
def sendChain : List WriteRec → Prop :=
  List.Chain' (fun w w' => w'.passed = w.passed.drop w.accepted)

/-- The object state right after the connectionless bind-and-learn
construction path (source lines 57-69, `udp` branch):
`self.buf, self.peer = self.sock.recvfrom(1024)` and
`self.peer_implicit = False`. -/
def initListenUdp (firstPayload : Bytes) (fromAddr : Nat) : NC :=
  { buf := rawTake 1024 firstPayload
    sockTimeout := Option.none
    defTimeout := Option.none
    timedOut := false
    logRecv := []
    logSend := []
    peer := some fromAddr
    peerImplicit := false }

/-! Frame lemmas: how the three accumulation loops transform the state. -/

@[simp] theorem log_recv_buf (st : NC) (b : Bytes) :
    (log_recv st b).buf = st.buf := rfl

@[simp] theorem log_recv_defTimeout (st : NC) (b : Bytes) :
    (log_recv st b).defTimeout = st.defTimeout := rfl

@[simp] theorem log_recv_timedOut (st : NC) (b : Bytes) :
    (log_recv st b).timedOut = st.timedOut := rfl

@[simp] theorem log_recv_logRecv (st : NC) (b : Bytes) :
    (log_recv st b).logRecv = st.logRecv ++ [b] := rfl

@[simp] theorem setPerIter_buf (tmo : Option Int) (clock : Nat → Int)
    (k : Nat) (st : NC) : (setPerIter tmo clock k st).buf = st.buf := by
  cases tmo <;> rfl

@[simp] theorem setPerIter_logRecv (tmo : Option Int) (clock : Nat → Int)
    (k : Nat) (st : NC) :
    (setPerIter tmo clock k st).logRecv = st.logRecv := by
  cases tmo <;> rfl

@[simp] theorem setPerIter_defTimeout (tmo : Option Int) (clock : Nat → Int)
    (k : Nat) (st : NC) :
    (setPerIter tmo clock k st).defTimeout = st.defTimeout := by
  cases tmo <;> rfl

@[simp] theorem setPerIter_timedOut (tmo : Option Int) (clock : Nat → Int)
    (k : Nat) (st : NC) :
    (setPerIter tmo clock k st).timedOut = st.timedOut := by
  cases tmo <;> rfl

/-- One successful read step of the `recv_until` loop, as an equation. -/
theorem recvUntilLoop_data_step (s : Bytes) (tmo : Option Int)
    (clock : Nat → Int) (a : Bytes) (rest : List REv) (st : NC) (k : Nat)
    (hcont : containsSub s st.buf = false)
    (hexp : expiredAt tmo clock k = false) :
    recvUntilLoop s tmo clock (REv.data a :: rest) st k =
      recvUntilLoop s tmo clock rest
        { log_recv (setPerIter tmo clock k st) (rawTake 4096 a) with
          buf := (setPerIter tmo clock k st).buf ++ rawTake 4096 a }
        (k + 1) := by
  simp [recvUntilLoop, hcont, hexp, bytesEqEmptyStr]

/-- One successful read step of the `recv_all` loop, as an equation. -/
theorem recvAllLoop_data_step (tmo : Option Int) (clock : Nat → Int)
    (a : Bytes) (rest : List REv) (st : NC) (k : Nat)
    (hexp : expiredAt tmo clock k = false)
    (hemp : (rawTake 4096 a).isEmpty = false) :
    recvAllLoop tmo clock (REv.data a :: rest) st k =
      recvAllLoop tmo clock rest
        (log_recv
          { setPerIter tmo clock k st with
            buf := (setPerIter tmo clock k st).buf ++ rawTake 4096 a }
          (rawTake 4096 a))
        (k + 1) := by
  simp [recvAllLoop, hexp, hemp]

/-- One successful read step of the `recv_exactly` loop, as an equation. -/
theorem recvExactlyLoop_data_step (n : Nat) (tmo : Option Int)
    (clock : Nat → Int) (a : Bytes) (rest : List REv) (st : NC) (k : Nat)
    (hlt : st.buf.length < n) (hexp : expiredAt tmo clock k = false)
    (hz : ¬(rawTake (n - st.buf.length) a).length = 0) :
    recvExactlyLoop n tmo clock (REv.data a :: rest) st k =
      recvExactlyLoop n tmo clock rest
        { setPerIter tmo clock k st with
          buf := (setPerIter tmo clock k st).buf ++
            rawTake (n - (setPerIter tmo clock k st).buf.length) a }
        (k + 1) := by
  simp [recvExactlyLoop, hlt, hexp, hz]

/-- Running the `recv_until` loop only appends to the buffer and to the
receive log: the loop's final buffer is the initial one followed by the
chunks it read, each of which it logged, in order; the persistent deadline
field is untouched, and the TimedOut flag is set exactly on the timeout
exit. -/
theorem recvUntilLoop_frame (s : Bytes) (tmo : Option Int)
    (clock : Nat → Int) :
    ∀ (evs : List REv) (st : NC) (k : Nat),
    ∃ chunks : List Bytes,
      (recvUntilLoop s tmo clock evs st k).1.buf = st.buf ++ chunks.flatten ∧
      (recvUntilLoop s tmo clock evs st k).1.logRecv =
        st.logRecv ++ chunks ∧
      (recvUntilLoop s tmo clock evs st k).1.defTimeout = st.defTimeout ∧
      ((recvUntilLoop s tmo clock evs st k).2.2 = UntilExit.timedOut →
        (recvUntilLoop s tmo clock evs st k).1.timedOut = true) ∧
      ((recvUntilLoop s tmo clock evs st k).2.2 ≠ UntilExit.timedOut →
        (recvUntilLoop s tmo clock evs st k).1.timedOut = st.timedOut) := by
  intro evs
  induction evs with
  | nil =>
    intro st k
    refine ⟨[], ?_⟩
    by_cases hcont : containsSub s st.buf <;>
      by_cases hexp : expiredAt tmo clock k <;>
        simp [recvUntilLoop, hcont, hexp]
  | cons ev rest ih =>
    intro st k
    by_cases hcont : containsSub s st.buf
    · exact ⟨[], by simp [recvUntilLoop, hcont]⟩
    by_cases hexp : expiredAt tmo clock k
    · exact ⟨[], by simp [recvUntilLoop, hcont, hexp]⟩
    cases ev with
    | data a =>
      rw [recvUntilLoop_data_step s tmo clock a rest st k
        (by simpa using hcont) (by simpa using hexp)]
      obtain ⟨chunks, h1, h2, h3, h4, h5⟩ :=
        ih { log_recv (setPerIter tmo clock k st) (rawTake 4096 a) with
             buf := (setPerIter tmo clock k st).buf ++ rawTake 4096 a }
           (k + 1)
      refine ⟨rawTake 4096 a :: chunks, ?_, ?_, ?_, h4, ?_⟩
      · rw [h1]; simp [List.append_assoc]
      · rw [h2]; simp [log_recv]
      · rw [h3]; simp
      · intro hne
        rw [h5 hne]; simp
    | toErr => exact ⟨[], by simp [recvUntilLoop, hcont, hexp]⟩
    | err => exact ⟨[], by simp [recvUntilLoop, hcont, hexp]⟩
    | intr => exact ⟨[], by simp [recvUntilLoop, hcont, hexp]⟩

/-- Running the `recv_all` loop only appends to the buffer and the receive
log, and leaves the persistent deadline field untouched. -/
theorem recvAllLoop_frame (tmo : Option Int) (clock : Nat → Int) :
    ∀ (evs : List REv) (st : NC) (k : Nat),
    ∃ chunks : List Bytes,
      (recvAllLoop tmo clock evs st k).1.buf = st.buf ++ chunks.flatten ∧
      (recvAllLoop tmo clock evs st k).1.logRecv = st.logRecv ++ chunks ∧
      (recvAllLoop tmo clock evs st k).1.defTimeout = st.defTimeout := by
  intro evs
  induction evs with
  | nil =>
    intro st k
    refine ⟨[], ?_⟩
    by_cases hexp : expiredAt tmo clock k <;> simp [recvAllLoop, hexp]
  | cons ev rest ih =>
    intro st k
    by_cases hexp : expiredAt tmo clock k
    · exact ⟨[], by simp [recvAllLoop, hexp]⟩
    cases ev with
    | data a =>
      by_cases hemp : (rawTake 4096 a).isEmpty
      · exact ⟨[], by simp [recvAllLoop, hexp, hemp]⟩
      rw [recvAllLoop_data_step tmo clock a rest st k
        (by simpa using hexp) (by simpa using hemp)]
      obtain ⟨chunks, h1, h2, h3⟩ :=
        ih (log_recv
              { setPerIter tmo clock k st with
                buf := (setPerIter tmo clock k st).buf ++ rawTake 4096 a }
              (rawTake 4096 a))
           (k + 1)
      refine ⟨rawTake 4096 a :: chunks, ?_, ?_, ?_⟩
      · rw [h1]; simp [List.append_assoc]
      · rw [h2]; simp [log_recv]
      · rw [h3]; simp
    | toErr => exact ⟨[], by simp [recvAllLoop, hexp]⟩
    | err => exact ⟨[], by simp [recvAllLoop, hexp]⟩
    | intr => exact ⟨[], by simp [recvAllLoop, hexp]⟩

/-- The `recv_exactly` loop never calls the receive hook and leaves the
persistent deadline field untouched. -/
theorem recvExactlyLoop_log (n : Nat) (tmo : Option Int)
    (clock : Nat → Int) :
    ∀ (evs : List REv) (st : NC) (k : Nat),
      (recvExactlyLoop n tmo clock evs st k).1.logRecv = st.logRecv ∧
      (recvExactlyLoop n tmo clock evs st k).1.defTimeout = st.defTimeout := by
  intro evs
  induction evs with
  | nil =>
    intro st k
    by_cases hlt : st.buf.length < n <;>
      by_cases hexp : expiredAt tmo clock k <;>
        simp [recvExactlyLoop, hlt, hexp]
  | cons ev rest ih =>
    intro st k
    by_cases hlt : st.buf.length < n
    · by_cases hexp : expiredAt tmo clock k
      · simp [recvExactlyLoop, hlt, hexp]
      cases ev with
      | data a =>
        by_cases hz : (rawTake (n - st.buf.length) a).length = 0
        · simp [recvExactlyLoop, hlt, hexp, hz]
        · rw [recvExactlyLoop_data_step n tmo clock a rest st k hlt
            (by simpa using hexp) hz]
          have := ih { setPerIter tmo clock k st with
              buf := (setPerIter tmo clock k st).buf ++
                rawTake (n - (setPerIter tmo clock k st).buf.length) a }
            (k + 1)
          simpa using this
      | toErr => simp [recvExactlyLoop, hlt, hexp]
      | err => simp [recvExactlyLoop, hlt, hexp]
      | intr => simp [recvExactlyLoop, hlt, hexp]
    · simp [recvExactlyLoop, hlt]

/-- When `recv` returns bytes normally, it has reported exactly those bytes
to the receive hook, exactly once. -/
theorem recv_log_once (st : NC) (evs : List REv) (n : Nat) (tm : TimeoutArg)
    (b : Bytes) (h : (recv st evs n tm).2.2 = RecvResult.ok b) :
    (recv st evs n tm).1.logRecv = st.logRecv ++ [b] := by
  by_cases hbuf : st.buf = []
  · cases evs with
    | nil => simp [recv, hbuf] at h
    | cons ev rest =>
      cases ev with
      | data a =>
        simp [recv, log_recv, hbuf, bytesEqEmptyStr] at h ⊢
        simp [h]
      | toErr =>
        simp [recv, log_recv, hbuf, bytesEqEmptyStr] at h ⊢
        simp [h]
      | err => simp [recv, hbuf, bytesEqEmptyStr] at h
      | intr => simp [recv, hbuf] at h
  · simp [recv, log_recv, hbuf] at h ⊢
    simp [h]

/-- When `recv_exactly` returns bytes normally, it has reported exactly
those bytes to the receive hook, exactly once (its loop never logs). -/
theorem recv_exactly_log_once (st : NC) (evs : List REv) (n : Nat)
    (tm : TimeoutArg) (clock : Nat → Int) (b : Bytes)
    (h : (recv_exactly st evs n tm clock).2.2 = RecvResult.ok b) :
    (recv_exactly st evs n tm clock).1.logRecv = st.logRecv ++ [b] := by
  have hlog := recvExactlyLoop_log n
    (resolveTimeout tm ({ st with timedOut := false } : NC).defTimeout)
    clock evs { st with timedOut := false } 0
  rcases hL : recvExactlyLoop n
      (resolveTimeout tm ({ st with timedOut := false } : NC).defTimeout)
      clock evs { st with timedOut := false } 0 with ⟨stL, evsL, ex⟩
  rw [hL] at hlog
  simp at hlog
  simp only [recv_exactly] at h ⊢
  rw [hL] at h ⊢
  cases ex with
  | blocked => simp at h
  | raised e => simp at h
  | done =>
    simp only [log_recv] at h ⊢
    simp at h ⊢
    simp [hlog.1, h]

/-- When `recv_until` returns bytes normally, the receive hook has seen the
chunks read during the call and then, once more, the returned bytes. -/
theorem recv_until_log_chunks (st : NC) (evs : List REv) (s : Bytes)
    (tm : TimeoutArg) (clock : Nat → Int) (b : Bytes)
    (h : (recv_until st evs s tm clock).2.2 = RecvResult.ok b) :
    ∃ chunks : List Bytes,
      (recv_until st evs s tm clock).1.logRecv =
        st.logRecv ++ chunks ++ [b] := by
  obtain ⟨chunks, f1, f2, f3, f4, f5⟩ := recvUntilLoop_frame s
    (resolveTimeout tm ({ st with timedOut := false } : NC).defTimeout)
    clock evs { st with timedOut := false } 0
  rcases hL : recvUntilLoop s
      (resolveTimeout tm ({ st with timedOut := false } : NC).defTimeout)
      clock evs { st with timedOut := false } 0 with ⟨stL, evsL, ex⟩
  rw [hL] at f1 f2 f3 f4 f5
  simp only [recv_until] at h ⊢
  rw [hL] at h ⊢
  cases ex with
  | blocked => simp at h
  | raised e => simp at h
  | found =>
    refine ⟨chunks, ?_⟩
    simp only [head_buf, log_recv] at h ⊢
    simp at h ⊢
    simp at f2
    simp [f2, h]
  | timedOut =>
    refine ⟨chunks, ?_⟩
    simp only [head_buf, log_recv] at h ⊢
    simp at h ⊢
    simp at f2
    simp [f2, h]

/-- When `recv_all` returns bytes normally, the receive hook has seen
exactly the chunks read during the call (not the returned value, and not
the pre-buffered bytes, which the returned value nevertheless includes). -/
theorem recv_all_log_chunks (st : NC) (evs : List REv) (tm : TimeoutArg)
    (clock : Nat → Int) (b : Bytes)
    (h : (recv_all st evs tm clock).2.2 = RecvResult.ok b) :
    ∃ chunks : List Bytes,
      (recv_all st evs tm clock).1.logRecv = st.logRecv ++ chunks ∧
      b = st.buf ++ chunks.flatten := by
  obtain ⟨chunks, f1, f2, f3⟩ := recvAllLoop_frame
    (resolveTimeout tm ({ st with timedOut := false } : NC).defTimeout)
    clock evs { st with timedOut := false } 0
  rcases hL : recvAllLoop
      (resolveTimeout tm ({ st with timedOut := false } : NC).defTimeout)
      clock evs { st with timedOut := false } 0 with ⟨stL, evsL, ex⟩
  rw [hL] at f1 f2 f3
  simp only [recv_all] at h ⊢
  rw [hL] at h ⊢
  cases ex with
  | blocked => simp at h
  | done =>
    refine ⟨chunks, ?_, ?_⟩
    · simp at h ⊢
      simp at f2
      exact f2
    · simp at h f1
      rw [← h, f1]

/-! Properties of the first-occurrence search used by `recv_until`. -/

/-- A found occurrence decomposes the list: the `i` bytes before it, the
delimiter, and what follows. -/
theorem firstOccur_spec (d : Bytes) :
    ∀ (l : Bytes) (i : Nat), firstOccur d l = some i →
      ∃ pre suf, l = pre ++ (d ++ suf) ∧ pre.length = i := by
  intro l
  induction l with
  | nil =>
    intro i h
    simp only [firstOccur] at h
    by_cases hp : d.isPrefixOf ([] : Bytes)
    · rw [if_pos hp] at h
      have hd : d = [] :=
        List.prefix_nil.mp (List.isPrefixOf_iff_prefix.mp hp)
      refine ⟨[], [], by simp [hd], ?_⟩
      simpa using (Option.some.injEq _ _).mp h
    · rw [if_neg hp] at h
      cases h
  | cons a t ih =>
    intro i h
    simp only [firstOccur] at h
    by_cases hp : d.isPrefixOf (a :: t)
    · rw [if_pos hp] at h
      obtain ⟨suf, hsuf⟩ := List.isPrefixOf_iff_prefix.mp hp
      refine ⟨[], suf, by simp [hsuf], ?_⟩
      simpa using (Option.some.injEq _ _).mp h
    · rw [if_neg hp] at h
      cases hft : firstOccur d t with
      | none => rw [hft] at h; cases h
      | some j =>
        rw [hft] at h
        simp at h
        obtain ⟨pre, suf, heq, hlen⟩ := ih j hft
        exact ⟨a :: pre, suf, by simp [heq], by simp [hlen, h]⟩

/-- The delimiter occurs at `0` in itself. -/
theorem firstOccur_self (d : Bytes) : firstOccur d d = some 0 := by
  cases d with
  | nil => rfl
  | cons a t =>
    have : (a :: t).isPrefixOf (a :: t) = true :=
      List.isPrefixOf_iff_prefix.mpr (List.prefix_refl _)
    simp [firstOccur, this]

/-- Truncating just after the first occurrence preserves it as the first
occurrence. -/
theorem firstOccur_take (d : Bytes) :
    ∀ (l : Bytes) (i : Nat), firstOccur d l = some i →
      firstOccur d (l.take (i + d.length)) = some i := by
  intro l
  induction l with
  | nil => intro i h; simpa using h
  | cons a t ih =>
    intro i h
    simp only [firstOccur] at h
    by_cases hp : d.isPrefixOf (a :: t)
    · rw [if_pos hp] at h
      have hi : i = 0 := by simpa using h.symm
      subst hi
      have hd : d = List.take d.length (a :: t) :=
        List.prefix_iff_eq_take.mp (List.isPrefixOf_iff_prefix.mp hp)
      rw [Nat.zero_add, ← hd, firstOccur_self]
    · rw [if_neg hp] at h
      cases hft : firstOccur d t with
      | none => rw [hft] at h; cases h
      | some j =>
        rw [hft] at h
        simp at h
        subst h
        have harr : j + 1 + d.length = (j + d.length) + 1 := by omega
        rw [harr, List.take_succ_cons]
        have hp2 : ¬d.isPrefixOf (a :: t.take (j + d.length)) := by
          intro hcontra
          exact hp (List.isPrefixOf_iff_prefix.mpr
            ((List.isPrefixOf_iff_prefix.mp hcontra).trans
              ((List.cons_prefix_cons).mpr
                ⟨rfl, List.take_prefix _ t⟩)))
        simp only [firstOccur, if_neg hp2]
        rw [ih j hft]
        rfl

/-! Exact runs of the `recv_until` / `recv_all` loops over a stream of
bounded chunks ending in a peer close, used for the reassembly property. -/

/-- With no deadline and the delimiter somewhere in buffered-plus-incoming
data, the `recv_until` loop stops at the first accumulation containing the
delimiter: it consumes some prefix of the chunk stream, appends and logs
exactly those chunks, and leaves the rest of the events unread. -/
theorem recvUntilLoop_closes (d : Bytes) (clock : Nat → Int) :
    ∀ (chunks : List Bytes) (tail : List REv) (st : NC) (k : Nat),
      (∀ c ∈ chunks, c.length ≤ 4096) →
      containsSub d (st.buf ++ chunks.flatten) = true →
      ∃ j, j ≤ chunks.length ∧
        recvUntilLoop d Option.none clock (chunks.map REv.data ++ tail)
            st k =
          ({ st with buf := st.buf ++ (chunks.take j).flatten,
                     logRecv := st.logRecv ++ chunks.take j },
           (chunks.drop j).map REv.data ++ tail, UntilExit.found) ∧
        containsSub d (st.buf ++ (chunks.take j).flatten) = true := by
  intro chunks
  induction chunks with
  | nil =>
    intro tail st k hle hcont
    have hc : containsSub d st.buf = true := by simpa using hcont
    refine ⟨0, Nat.le_refl 0, ?_, by simpa using hc⟩
    cases tail with
    | nil => simp [recvUntilLoop, hc]
    | cons e ts => simp [recvUntilLoop, hc]
  | cons c cs ih =>
    intro tail st k hle hcont
    by_cases hc : containsSub d st.buf
    · refine ⟨0, Nat.zero_le _, ?_, by simpa using hc⟩
      simp [recvUntilLoop, hc]
    · have hT : rawTake 4096 c = c := by
        simp [rawTake, List.take_of_length_le (hle c (by simp))]
      have hstep := recvUntilLoop_data_step d Option.none clock c
        (cs.map REv.data ++ tail) st k (by simpa using hc) rfl
      rw [show (c :: cs).map REv.data ++ tail =
        REv.data c :: (cs.map REv.data ++ tail) by simp, hstep]
      simp only [setPerIter_none, hT]
      obtain ⟨j, hj, heq, hc2⟩ := ih tail
        { log_recv st c with buf := st.buf ++ c } (k + 1)
        (fun x hx => hle x (by simp [hx]))
        (by simpa [List.append_assoc] using hcont)
      refine ⟨j + 1, by simpa using hj, ?_, ?_⟩
      · rw [heq]
        simp [log_recv, List.append_assoc]
      · simpa [log_recv, List.append_assoc] using hc2

/-- With no deadline, non-empty bounded chunks followed by a peer close:
the `recv_all` loop reads and logs every chunk, stops at the close, and
leaves the remaining events unread. -/
theorem recvAllLoop_closes (clock : Nat → Int) :
    ∀ (chunks : List Bytes) (tail : List REv) (st : NC) (k : Nat),
      (∀ c ∈ chunks, c.length ≤ 4096 ∧ c ≠ []) →
      recvAllLoop Option.none clock
          (chunks.map REv.data ++ REv.data [] :: tail) st k =
        ({ st with buf := st.buf ++ chunks.flatten,
                   logRecv := st.logRecv ++ chunks },
         tail, AllExit.done) := by
  intro chunks
  induction chunks with
  | nil =>
    intro tail st k _
    simp [recvAllLoop, rawTake]
  | cons c cs ih =>
    intro tail st k hcs
    have hT : rawTake 4096 c = c := by
      simp [rawTake, List.take_of_length_le (hcs c (by simp)).1]
    have hemp : (rawTake 4096 c).isEmpty = false := by
      rw [hT]
      simpa [List.isEmpty_iff] using (hcs c (by simp)).2
    have hstep := recvAllLoop_data_step Option.none clock c
      (cs.map REv.data ++ REv.data [] :: tail) st k rfl hemp
    rw [show (c :: cs).map REv.data ++ REv.data [] :: tail =
      REv.data c :: (cs.map REv.data ++ REv.data [] :: tail) by simp, hstep]
    simp only [setPerIter_none, hT]
    rw [ih tail (log_recv { st with buf := st.buf ++ c } c) (k + 1)
      (fun x hx => hcs x (by simp [hx]))]
    simp [log_recv, List.append_assoc]

/-! Concrete states used by counterexamples and witnesses. -/

/-- A freshly wrapped connection with an empty residual buffer. -/
def stEmpty : NC :=
  { buf := [], sockTimeout := Option.none, defTimeout := Option.none,
    timedOut := false, logRecv := [], logSend := [],
    peer := Option.none, peerImplicit := true }

/-- A connection whose residual buffer holds the single byte `1`. -/
def stBuf1 : NC :=
  { buf := [1], sockTimeout := Option.none, defTimeout := Option.none,
    timedOut := false, logRecv := [], logSend := [],
    peer := Option.none, peerImplicit := true }

/-- C1 counterexample: with residual buffer `[1]`, `recv(3)` under an
unlimited timeout returns just the one buffered byte and performs no raw
read, even though two more bytes are available on the socket — so it does
not return `min(3, 3) = 3` bytes and issues no read for the remainder,
contradicting the claim at this input. -/
theorem C1_counterexample :
    (recv stBuf1 [REv.data [2, 3]] 3 TimeoutArg.noTimeout).2.2 =
      RecvResult.ok [1] ∧
    (recv stBuf1 [REv.data [2, 3]] 3 TimeoutArg.noTimeout).2.1 =
      [REv.data [2, 3]] := by decide

/-- C1 (amended): whenever the residual buffer is non-empty, `recv` returns
its first `min(n, len(buf))` bytes immediately and consumes no raw read,
even when that is fewer than `n` bytes; only when the buffer is empty does
`recv` issue one raw read bounded by `n` and return exactly the bytes that
read yields. -/
theorem C1_recv_buffer_or_single_read (st : NC) (evs : List REv) (n : Nat)
    (tm : TimeoutArg) (b : Bytes) :
    (st.buf ≠ [] →
      (recv st evs n tm).2.2 = RecvResult.ok (st.buf.take n) ∧
      (recv st evs n tm).2.1 = evs) ∧
    (st.buf = [] → b.length ≤ n →
      (recv st (REv.data b :: evs) n TimeoutArg.noTimeout).2.2 =
        RecvResult.ok b ∧
      (recv st (REv.data b :: evs) n TimeoutArg.noTimeout).2.1 = evs) := by
  constructor
  · intro h
    simp [recv, log_recv, h]
  · intro h hb
    simp [recv, log_recv, h, rawTake, bytesEqEmptyStr,
      List.take_of_length_le hb]

/-- Witness for C1: instantiates both branches of the amended statement. -/
theorem C1_recv_buffer_or_single_read_witness :
    (recv stBuf1 [] 3 TimeoutArg.default).2.2 = RecvResult.ok [1] ∧
    (recv stEmpty [REv.data [5, 6]] 3 TimeoutArg.noTimeout).2.2 =
      RecvResult.ok [5, 6] :=
  ⟨((C1_recv_buffer_or_single_read stBuf1 [] 3 TimeoutArg.default
      [5, 6]).1 (by decide)).1,
   ((C1_recv_buffer_or_single_read stEmpty [] 3 TimeoutArg.noTimeout
      [5, 6]).2 (by decide) (by decide)).1⟩

/-- C2: the persistent deadline is NOT restored on every exit path.
`recv_exactly` has no `settimeout(self._timeout)` at all: after a successful
`recv_exactly(1, timeout=10)` the socket deadline is left at the per-call
value `10` while `_timeout` is `None`.  Likewise `recv`'s `socket.error`
path raises before its restore line, leaving the per-call deadline `5` on
the socket. -/
theorem C2_deadline_not_restored :
    (recv_exactly stEmpty [REv.data [7]] 1 (TimeoutArg.time 10)
        (fun _ => 0)).1.sockTimeout = some 10 ∧
    (recv_exactly stEmpty [REv.data [7]] 1 (TimeoutArg.time 10)
        (fun _ => 0)).2.2 = RecvResult.ok [7] ∧
    stEmpty.defTimeout = Option.none ∧
    (recv stEmpty [REv.err] 4096 (TimeoutArg.time 5)).1.sockTimeout = some 5 ∧
    (recv stEmpty [REv.err] 4096 (TimeoutArg.time 5)).2.2 =
      RecvResult.exn (Exn.netcat "Socket error!") := by decide

/-- C3: the dropped-connection checks are dead code in this Python 3 port.
`recv(timeout=None)` against a closed peer (zero-length raw read) returns
`b''` instead of raising, because `ret == ''` compares bytes with str and is
always false; `recv_until` on a zero-length raw read appends nothing and
keeps waiting (here: blocks once the event list is exhausted) instead of
raising. -/
theorem C3_drop_check_dead :
    (recv stEmpty [REv.data []] 4096 TimeoutArg.noTimeout).2.2 =
      RecvResult.ok [] ∧
    (recv_until stEmpty [REv.data []] [10] TimeoutArg.noTimeout
        (fun _ => 0)).2.2 = RecvResult.blocked := by decide

/-- C4 counterexample: `recv_until([9], timeout=5)` that reads `[1,2]` and
then expires returns those bytes (consuming them) and leaves the residual
buffer empty — the claim's "returns without consuming anything; the
residual buffer contains every byte read" is false at this input. -/
theorem C4_counterexample :
    (recv_until stEmpty [REv.data [1, 2]] [9] (TimeoutArg.time 5)
        (fun k => if k = 0 then 0 else 10)).1.buf = [] ∧
    (recv_until stEmpty [REv.data [1, 2]] [9] (TimeoutArg.time 5)
        (fun k => if k = 0 then 0 else 10)).2.2 = RecvResult.ok [1, 2] ∧
    (recv_until stEmpty [REv.data [1, 2]] [9] (TimeoutArg.time 5)
        (fun k => if k = 0 then 0 else 10)).1.timedOut = true := by decide

/-- C4 (amended): when `recv_until`'s deadline expires before the delimiter
appears, the call sets TimedOut and returns the ENTIRE accumulated buffer —
the prior residual bytes followed by every chunk read during the call, in
order — leaving the residual buffer empty (`_head_buf(None)` consumes
everything). -/
theorem C4_timeout_consumes_all (st : NC) (evs : List REv) (s : Bytes)
    (t : Int) (clock : Nat → Int)
    (h : (recv_until st evs s (TimeoutArg.time t) clock).1.timedOut = true) :
    ∃ chunks : List Bytes,
      (recv_until st evs s (TimeoutArg.time t) clock).2.2 =
        RecvResult.ok (st.buf ++ chunks.flatten) ∧
      (recv_until st evs s (TimeoutArg.time t) clock).1.buf = [] ∧
      (recv_until st evs s (TimeoutArg.time t) clock).1.logRecv =
        st.logRecv ++ chunks ++ [st.buf ++ chunks.flatten] := by
  obtain ⟨chunks, f1, f2, f3, f4, f5⟩ := recvUntilLoop_frame s
    (resolveTimeout (TimeoutArg.time t)
      ({ st with timedOut := false } : NC).defTimeout)
    clock evs { st with timedOut := false } 0
  rcases hL : recvUntilLoop s
      (resolveTimeout (TimeoutArg.time t)
        ({ st with timedOut := false } : NC).defTimeout)
      clock evs { st with timedOut := false } 0 with ⟨stL, evsL, ex⟩
  rw [hL] at f1 f2 f3 f4 f5
  simp only [recv_until] at h ⊢
  rw [hL] at h ⊢
  cases ex with
  | blocked =>
    simp at h f5
    simp [f5] at h
  | raised e =>
    simp at h f5
    simp [f5] at h
  | found =>
    simp [head_buf, log_recv] at h f5
    simp [f5] at h
  | timedOut =>
    have hT : stL.timedOut = true := by simpa using f4
    refine ⟨chunks, ?_, ?_, ?_⟩
    · simp [head_buf, hT]
      simpa using f1
    · simp [head_buf, log_recv, hT]
    · simp [head_buf, log_recv, hT]
      simp at f1 f2
      simp [f1, f2]

/-- Witness for C4: a call that reads one chunk and then times out. -/
theorem C4_timeout_consumes_all_witness :
    ∃ chunks : List Bytes,
      (recv_until stEmpty [REv.data [3, 4]] [9] (TimeoutArg.time 5)
          (fun k => if k = 0 then 0 else 10)).2.2 =
        RecvResult.ok (stEmpty.buf ++ chunks.flatten) ∧
      (recv_until stEmpty [REv.data [3, 4]] [9] (TimeoutArg.time 5)
          (fun k => if k = 0 then 0 else 10)).1.buf = [] ∧
      (recv_until stEmpty [REv.data [3, 4]] [9] (TimeoutArg.time 5)
          (fun k => if k = 0 then 0 else 10)).1.logRecv =
        stEmpty.logRecv ++ chunks ++ [stEmpty.buf ++ chunks.flatten] :=
  C4_timeout_consumes_all stEmpty [REv.data [3, 4]] [9] 5
    (fun k => if k = 0 then 0 else 10) (by decide)

/-- C5 counterexample: `recv_exactly(2)` with one buffered byte raises a
`NetcatError` naming the deficit on a zero-length raw read, rather than
returning the partial data as the claim states. -/
theorem C5_counterexample :
    (recv_exactly stBuf1 [REv.data []] 2 TimeoutArg.noTimeout
        (fun _ => 0)).2.2 =
      RecvResult.exn
        (Exn.netcat "Connection closed before 2 bytes received!") := by decide

/-- C5 (amended): a zero-length raw read ends `recv_all`'s loop and the call
returns the partial data accumulated so far; in `recv_exactly` it instead
raises a `NetcatError` naming the deficit (whenever fewer than `n` bytes are
buffered). -/
theorem C5_close_asymmetry (st : NC) (rest : List REv) (n : Nat)
    (clock : Nat → Int) :
    ((recv_all st (REv.data [] :: rest) TimeoutArg.noTimeout clock).2.2 =
        RecvResult.ok st.buf ∧
      (recv_all st (REv.data [] :: rest) TimeoutArg.noTimeout clock).1.buf =
        [] ∧
      (recv_all st (REv.data [] :: rest) TimeoutArg.noTimeout clock).2.1 =
        rest) ∧
    (st.buf.length < n →
      (recv_exactly st (REv.data [] :: rest) n TimeoutArg.noTimeout
          clock).2.2 =
        RecvResult.exn (Exn.netcat
          ("Connection closed before " ++ toString n ++
            " bytes received!"))) := by
  constructor
  · simp [recv_all, recvAllLoop, resolveTimeout, rawTake, expiredAt,
      setPerIter]
  · intro h
    simp [recv_exactly, recvExactlyLoop, resolveTimeout, rawTake, h,
      expiredAt, setPerIter]

/-- Witness for C5: one buffered byte, peer closed. -/
theorem C5_close_asymmetry_witness :
    (recv_all stBuf1 [REv.data []] TimeoutArg.noTimeout (fun _ => 0)).2.2 =
      RecvResult.ok [1] ∧
    (recv_exactly stBuf1 [REv.data []] 2 TimeoutArg.noTimeout
        (fun _ => 0)).2.2 =
      RecvResult.exn
        (Exn.netcat "Connection closed before 2 bytes received!") :=
  ⟨(C5_close_asymmetry stBuf1 [] 2 (fun _ => 0)).1.1,
   (C5_close_asymmetry stBuf1 [] 2 (fun _ => 0)).2 (by decide)⟩

/-- C6 counterexample: `recv_until` invokes the receive hook twice for one
logical operation — once for the chunk read and once more for the returned
bytes — so the returned byte `9` is reported twice, not exactly once. -/
theorem C6_counterexample :
    (recv_until stEmpty [REv.data [9]] [9] TimeoutArg.noTimeout
        (fun _ => 0)).1.logRecv = [[9], [9]] ∧
    (recv_until stEmpty [REv.data [9]] [9] TimeoutArg.noTimeout
        (fun _ => 0)).2.2 = RecvResult.ok [9] := by decide

/-- C6 (amended): `recv` and `recv_exactly` invoke the receive hook exactly
once per operation, with exactly the returned bytes; `recv_until` invokes
it once per chunk read and once more with the returned bytes (so returned
bytes are reported twice); `recv_all` invokes it once per chunk read and
never with the returned value, whose pre-buffered prefix is therefore
never reported. -/
theorem C6_log_recv_discipline (st : NC) (evs : List REv) (n : Nat)
    (tm : TimeoutArg) (s : Bytes) (clock : Nat → Int) (b : Bytes) :
    ((recv st evs n tm).2.2 = RecvResult.ok b →
      (recv st evs n tm).1.logRecv = st.logRecv ++ [b]) ∧
    ((recv_exactly st evs n tm clock).2.2 = RecvResult.ok b →
      (recv_exactly st evs n tm clock).1.logRecv = st.logRecv ++ [b]) ∧
    ((recv_until st evs s tm clock).2.2 = RecvResult.ok b →
      ∃ chunks : List Bytes,
        (recv_until st evs s tm clock).1.logRecv =
          st.logRecv ++ chunks ++ [b]) ∧
    ((recv_all st evs tm clock).2.2 = RecvResult.ok b →
      ∃ chunks : List Bytes,
        (recv_all st evs tm clock).1.logRecv = st.logRecv ++ chunks ∧
        b = st.buf ++ chunks.flatten) :=
  ⟨recv_log_once st evs n tm b,
   recv_exactly_log_once st evs n tm clock b,
   recv_until_log_chunks st evs s tm clock b,
   recv_all_log_chunks st evs tm clock b⟩

/-- Witness for C6: all four operations on the same stream return `[9]`. -/
theorem C6_log_recv_discipline_witness :
    (recv stEmpty [REv.data [9], REv.data []] 1
        TimeoutArg.default).1.logRecv = stEmpty.logRecv ++ [[9]] ∧
    (recv_exactly stEmpty [REv.data [9], REv.data []] 1 TimeoutArg.default
        (fun _ => 0)).1.logRecv = stEmpty.logRecv ++ [[9]] ∧
    (∃ chunks : List Bytes,
      (recv_until stEmpty [REv.data [9], REv.data []] [9]
          TimeoutArg.default (fun _ => 0)).1.logRecv =
        stEmpty.logRecv ++ chunks ++ [[9]]) ∧
    (∃ chunks : List Bytes,
      (recv_all stEmpty [REv.data [9], REv.data []] TimeoutArg.default
          (fun _ => 0)).1.logRecv = stEmpty.logRecv ++ chunks ∧
      [9] = stEmpty.buf ++ chunks.flatten) :=
  ⟨(C6_log_recv_discipline stEmpty [REv.data [9], REv.data []] 1
      TimeoutArg.default [9] (fun _ => 0) [9]).1 (by decide),
   (C6_log_recv_discipline stEmpty [REv.data [9], REv.data []] 1
      TimeoutArg.default [9] (fun _ => 0) [9]).2.1 (by decide),
   (C6_log_recv_discipline stEmpty [REv.data [9], REv.data []] 1
      TimeoutArg.default [9] (fun _ => 0) [9]).2.2.1 (by decide),
   (C6_log_recv_discipline stEmpty [REv.data [9], REv.data []] 1
      TimeoutArg.default [9] (fun _ => 0) [9]).2.2.2 (by decide)⟩

/-- C7: against a stalled peer (the next raw read raises `socket.timeout`,
or the deadline is already past), `recv_exactly(n, timeout=t)` with fewer
than `n` bytes buffered sets the TimedOut flag and returns the short buffer
contents without raising. -/
theorem C7_exactly_timeout_short (st : NC) (evs : List REv) (n : Nat)
    (t : Int) (clock : Nat → Int) (h : st.buf.length < n) :
    (recv_exactly st (REv.toErr :: evs) n (TimeoutArg.time t)
        clock).1.timedOut = true ∧
    (recv_exactly st (REv.toErr :: evs) n (TimeoutArg.time t) clock).2.2 =
      RecvResult.ok st.buf := by
  by_cases hc : clock 0 > t <;>
    simp [recv_exactly, recvExactlyLoop, resolveTimeout, hc, h, log_recv,
      List.take_of_length_le h.le]

/-- Witness for C7: one buffered byte, `recv_exactly(3, timeout=10)`,
stalled peer. -/
theorem C7_exactly_timeout_short_witness :
    (recv_exactly stBuf1 [REv.toErr] 3 (TimeoutArg.time 10)
        (fun _ => 0)).1.timedOut = true ∧
    (recv_exactly stBuf1 [REv.toErr] 3 (TimeoutArg.time 10)
        (fun _ => 0)).2.2 = RecvResult.ok [1] :=
  C7_exactly_timeout_short stBuf1 [] 3 10 (fun _ => 0) (by decide)

/-- Helper for C9: concatenating what each write accepted with the leftover
reconstructs the input — each iteration advanced past exactly the accepted
count. -/
theorem sendLoop_flatten (implicit : Bool) (peer : Option Nat) :
    ∀ (accepts : List Nat) (s : Bytes),
      ((sendLoop implicit peer accepts s).1.map
          fun w => w.passed.take w.accepted).flatten ++
        (sendLoop implicit peer accepts s).2 = s := by
  intro accepts
  induction accepts with
  | nil => intro s; cases s <;> simp [sendLoop]
  | cons kk ks ih =>
    intro s
    cases s with
    | nil => simp [sendLoop]
    | cons c cs =>
      have hrec := ih ((c :: cs).drop kk)
      simp only [sendLoop, List.map_cons, List.flatten_cons,
        List.append_assoc]
      rw [hrec, List.take_append_drop]

/-- Helper for C9: in explicit-peer mode every write is a `sendto` aimed at
the stored peer address. -/
theorem sendLoop_targets (peer : Option Nat) :
    ∀ (accepts : List Nat) (s : Bytes) (w : WriteRec),
      w ∈ (sendLoop false peer accepts s).1 → w.target = peer := by
  intro accepts
  induction accepts with
  | nil => intro s w hw; cases s <;> simp [sendLoop] at hw
  | cons kk ks ih =>
    intro s w hw
    cases s with
    | nil => simp [sendLoop] at hw
    | cons c cs =>
      simp only [sendLoop, List.mem_cons] at hw
      rcases hw with hw | hw
      · simp [hw]
      · exact ih ((c :: cs).drop kk) w hw

/-- Helper for C9: the write trace is a chain where each write receives the
previous remainder minus the bytes the previous write accepted, and the
first write receives the whole input. -/
theorem sendLoop_chainStep (implicit : Bool) (peer : Option Nat) :
    ∀ (accepts : List Nat) (s : Bytes),
      sendChain (sendLoop implicit peer accepts s).1 ∧
      ∀ w ∈ (sendLoop implicit peer accepts s).1.head?, w.passed = s := by
  intro accepts
  induction accepts with
  | nil =>
    intro s
    cases s <;> simp [sendLoop, sendChain]
  | cons kk ks ih =>
    intro s
    cases s with
    | nil => simp [sendLoop, sendChain]
    | cons c cs =>
      have hrec := ih ((c :: cs).drop kk)
      constructor
      · simp only [sendLoop, sendChain, List.chain'_cons']
        exact ⟨fun y hy => hrec.2 y hy, hrec.1⟩
      · intro w hw
        simp only [sendLoop, List.head?_cons, Option.mem_def,
          Option.some.injEq] at hw
        rw [← hw]

/-- Helper for C9: when the writes together accept at least the whole
input, the loop transmits everything. -/
theorem sendLoop_complete (implicit : Bool) (peer : Option Nat) :
    ∀ (accepts : List Nat) (s : Bytes),
      s.length ≤ accepts.sum →
      (sendLoop implicit peer accepts s).2 = [] := by
  intro accepts
  induction accepts with
  | nil =>
    intro s hlen
    have : s = [] := List.eq_nil_of_length_eq_zero (Nat.le_zero.mp
      (by simpa using hlen))
    rw [this]; rfl
  | cons kk ks ih =>
    intro s hlen
    cases s with
    | nil => rfl
    | cons c cs =>
      have : ((c :: cs).drop kk).length ≤ ks.sum := by
        simp only [List.length_drop, List.length_cons, List.sum_cons] at hlen ⊢
        omega
      simpa [sendLoop] using ih ((c :: cs).drop kk) this

/-- C8: for a stream (residual buffer, then bursts of at most 4096 bytes,
then peer close) containing the delimiter `d`, `recv_until(d)` with
unlimited timeout followed by `recv_all()` yields two byte sequences whose
concatenation is exactly the original stream, the first ending at the first
occurrence of `d` inclusive. -/
theorem C8_until_then_all (st : NC) (chunks : List Bytes) (d : Bytes)
    (clock clock2 : Nat → Int)
    (hle : ∀ c ∈ chunks, c.length ≤ 4096)
    (hne : ∀ c ∈ chunks, c ≠ [])
    (hd : containsSub d (st.buf ++ chunks.flatten) = true) :
    ∃ b1 b2 pre,
      (recv_until st (chunks.map REv.data ++ [REv.data []]) d
          TimeoutArg.noTimeout clock).2.2 = RecvResult.ok b1 ∧
      (recv_all
          (recv_until st (chunks.map REv.data ++ [REv.data []]) d
            TimeoutArg.noTimeout clock).1
          (recv_until st (chunks.map REv.data ++ [REv.data []]) d
            TimeoutArg.noTimeout clock).2.1
          TimeoutArg.noTimeout clock2).2.2 = RecvResult.ok b2 ∧
      b1 ++ b2 = st.buf ++ chunks.flatten ∧
      b1 = pre ++ d ∧
      firstOccur d b1 = some pre.length := by
  obtain ⟨j, hj, hLoop, hc2⟩ := recvUntilLoop_closes d clock chunks
    [REv.data []] { st with timedOut := false } 0 hle (by simpa using hd)
  have hcB : containsSub d (st.buf ++ (chunks.take j).flatten) = true := by
    simpa using hc2
  obtain ⟨i, hFO⟩ := Option.isSome_iff_exists.mp
    (by simpa [containsSub] using hcB)
  obtain ⟨pre, suf, hdecomp, hlen⟩ := firstOccur_spec d _ i hFO
  have htake : (st.buf ++ (chunks.take j).flatten).take (i + d.length) =
      pre ++ d := by
    rw [hdecomp, ← List.append_assoc]
    exact List.take_left' (by simp [hlen])
  have hdrop : (st.buf ++ (chunks.take j).flatten).drop (i + d.length) =
      suf := by
    rw [hdecomp, ← List.append_assoc]
    exact List.drop_left' (by simp [hlen])
  have hFO1 : firstOccur d (pre ++ d) = some pre.length := by
    have h2 := firstOccur_take d _ i hFO
    rw [htake] at h2
    rw [h2, hlen]
  have hr1 : (recv_until st (chunks.map REv.data ++ [REv.data []]) d
      TimeoutArg.noTimeout clock).2.2 = RecvResult.ok (pre ++ d) := by
    simp only [recv_until, resolveTimeout]
    rw [hLoop]
    simp [head_buf, log_recv, hFO, htake]
  have hr2 : (recv_until st (chunks.map REv.data ++ [REv.data []]) d
      TimeoutArg.noTimeout clock).2.1 =
      (chunks.drop j).map REv.data ++ [REv.data []] := by
    simp only [recv_until, resolveTimeout]
    rw [hLoop]
  have hr3 : (recv_until st (chunks.map REv.data ++ [REv.data []]) d
      TimeoutArg.noTimeout clock).1.buf = suf := by
    simp only [recv_until, resolveTimeout]
    rw [hLoop]
    simp [head_buf, log_recv, hFO, hdrop]
  have hall : ∀ stX : NC,
      (recv_all stX ((chunks.drop j).map REv.data ++ [REv.data []])
        TimeoutArg.noTimeout clock2).2.2 =
      RecvResult.ok (stX.buf ++ (chunks.drop j).flatten) := by
    intro stX
    simp only [recv_all, resolveTimeout]
    rw [recvAllLoop_closes clock2 (chunks.drop j) []
      { stX with timedOut := false } 0
      (fun c hcm => ⟨hle c (List.mem_of_mem_drop hcm),
        hne c (List.mem_of_mem_drop hcm)⟩)]
  refine ⟨pre ++ d, suf ++ (chunks.drop j).flatten, pre, hr1, ?_, ?_, rfl,
    hFO1⟩
  · rw [hr2, hall, hr3]
  · calc (pre ++ d) ++ (suf ++ (chunks.drop j).flatten)
        = (pre ++ (d ++ suf)) ++ (chunks.drop j).flatten := by
          simp [List.append_assoc]
      _ = (st.buf ++ (chunks.take j).flatten) ++
            (chunks.drop j).flatten := by rw [← hdecomp]
      _ = st.buf ++ ((chunks.take j).flatten ++
            (chunks.drop j).flatten) := by simp [List.append_assoc]
      _ = st.buf ++ chunks.flatten := by
          rw [← List.flatten_append, List.take_append_drop]

/-- Witness for C8: buffer empty, one burst `[1, 10, 2]`, delimiter `[10]`:
`recv_until` returns `[1, 10]`, `recv_all` returns `[2]`, and together they
reassemble the stream. -/
theorem C8_until_then_all_witness :
    ∃ b1 b2 pre,
      (recv_until stEmpty ([[1, 10, 2]].map REv.data ++ [REv.data []]) [10]
          TimeoutArg.noTimeout (fun _ => 0)).2.2 = RecvResult.ok b1 ∧
      (recv_all
          (recv_until stEmpty ([[1, 10, 2]].map REv.data ++ [REv.data []])
            [10] TimeoutArg.noTimeout (fun _ => 0)).1
          (recv_until stEmpty ([[1, 10, 2]].map REv.data ++ [REv.data []])
            [10] TimeoutArg.noTimeout (fun _ => 0)).2.1
          TimeoutArg.noTimeout (fun _ => 0)).2.2 = RecvResult.ok b2 ∧
      b1 ++ b2 = stEmpty.buf ++ [[1, 10, 2]].flatten ∧
      b1 = pre ++ [10] ∧
      firstOccur [10] b1 = some pre.length :=
  C8_until_then_all stEmpty [[1, 10, 2]] [10] (fun _ => 0) (fun _ => 0)
    (by decide) (by decide) (by decide)

/-- C9: the send loop advances past exactly the bytes each underlying write
accepted (the accepted prefixes plus the untransmitted leftover reassemble
the input, and each write receives the previous remainder); with productive
writes, everything is transmitted; and when `peer_implicit` is false, every
write is a `sendto` aimed at the peer address stored at construction. -/
theorem C9_send_loop (st : NC) (accepts : List Nat) (s : Bytes) :
    (((send st accepts s).2.1.map
        fun w => w.passed.take w.accepted).flatten ++
      (send st accepts s).2.2 = s) ∧
    sendChain (send st accepts s).2.1 ∧
    (st.peerImplicit = false →
      ∀ w ∈ (send st accepts s).2.1, w.target = st.peer) ∧
    (s.length ≤ accepts.sum → (send st accepts s).2.2 = []) := by
  refine ⟨?_, ?_, ?_, ?_⟩
  · simpa [send] using sendLoop_flatten st.peerImplicit st.peer accepts s
  · simpa [send] using (sendLoop_chainStep st.peerImplicit st.peer accepts s).1
  · intro himpl w hw
    rw [send] at hw
    rw [himpl] at hw
    exact sendLoop_targets st.peer accepts s w hw
  · intro hlen
    simpa [send] using
      sendLoop_complete st.peerImplicit st.peer accepts s hlen

/-- Witness for C9: a bind-and-learn endpoint (peer address `5`), sending
three bytes with writes accepting two at a time. -/
theorem C9_send_loop_witness :
    (∀ w ∈ (send (initListenUdp [8, 8] 5) [2, 2] [1, 2, 3]).2.1,
      w.target = some 5) ∧
    (send (initListenUdp [8, 8] 5) [2, 2] [1, 2, 3]).2.2 = [] :=
  ⟨fun w hw =>
    (C9_send_loop (initListenUdp [8, 8] 5) [2, 2] [1, 2, 3]).2.2.1
      (by decide) w hw,
   (C9_send_loop (initListenUdp [8, 8] 5) [2, 2] [1, 2, 3]).2.2.2
      (by decide)⟩

/-- C10: a call to `recv` made while the residual buffer is non-empty
returns the first `min(n, len(buf))` buffered bytes, consumes no raw read,
leaves the socket deadline untouched, leaves the TimedOut flag false, and
behaves identically for every value of the `timeout` argument. -/
theorem C10_recv_buffered (st : NC) (evs : List REv) (n : Nat)
    (tm : TimeoutArg) (h : st.buf ≠ []) :
    (recv st evs n tm).2.2 = RecvResult.ok (st.buf.take n) ∧
    (recv st evs n tm).2.1 = evs ∧
    (recv st evs n tm).1.buf = st.buf.drop n ∧
    (recv st evs n tm).1.sockTimeout = st.sockTimeout ∧
    (recv st evs n tm).1.timedOut = false ∧
    (recv st evs n tm).1.logRecv = st.logRecv ++ [st.buf.take n] := by
  simp [recv, log_recv, h]

/-- Witness for C10: buffer `[1]`, request 4096 bytes with an explicit
timeout; the single buffered byte comes back, fewer than requested, with
the socket untouched. -/
theorem C10_recv_buffered_witness :
    (recv stBuf1 [REv.data [2]] 4096 (TimeoutArg.time 3)).2.2 =
      RecvResult.ok [1] ∧
    (recv stBuf1 [REv.data [2]] 4096 (TimeoutArg.time 3)).2.1 =
      [REv.data [2]] ∧
    (recv stBuf1 [REv.data [2]] 4096 (TimeoutArg.time 3)).1.buf = [] ∧
    (recv stBuf1 [REv.data [2]] 4096 (TimeoutArg.time 3)).1.sockTimeout =
      Option.none ∧
    (recv stBuf1 [REv.data [2]] 4096 (TimeoutArg.time 3)).1.timedOut =
      false ∧
    (recv stBuf1 [REv.data [2]] 4096 (TimeoutArg.time 3)).1.logRecv =
      [[1]] :=
  C10_recv_buffered stBuf1 [REv.data [2]] 4096 (TimeoutArg.time 3)
    (by decide)

end Nclib
